import Mathlib

/-!
Verification development for the Jenkins history CLI
(src/jenkins-history.py).  The Python code is shallowly embedded:
JSON payloads become the inductive type JVal, Python exceptions become
an Except monad, and sys.exit is modelled as an Except error carrying
the exit status.  All definitions are executable and mirror the source
line by line.
-/

/-- JSON values as delivered by the Jenkins REST API (and produced by
the `requests` json() parser). Numbers are modelled as integers, the
only numeric fields used by the tool (build number, timestamp,
duration) being integral. -/
inductive JVal where
  | jnull
  | jbool (b : Bool)
  | jint (n : Int)
  | jstr (s : String)
  | jarr (xs : List JVal)
  | jobj (fields : List (String × JVal))

/-- Python exceptions that the embedded fragments can raise. -/
inductive PyExc where
  | typeError
  | attributeError
deriving DecidableEq

/-- Key equality for Python dict keys as used by `parameters[name] = ...`.
Only hashable values (scalars and strings) can be dict keys; the
code guards insertions accordingly, so list/dict keys never occur. -/
def keyEq : JVal → JVal → Bool
  | .jnull, .jnull => true
  | .jbool a, .jbool b => a == b
  | .jint a, .jint b => a == b
  | .jstr a, .jstr b => a == b
  | _, _ => false

/-- Python truthiness: bool(v). -/
def truthy : JVal → Bool
  | .jnull => false
  | .jbool b => b
  | .jint n => n != 0
  | .jstr s => s != ""
  | .jarr xs => !xs.isEmpty
  | .jobj fs => !fs.isEmpty

mutual
/-- Python repr() of a JSON value (string escaping elided). -/
def pyRepr : JVal → String
  | .jnull => "None"
  | .jbool true => "True"
  | .jbool false => "False"
  | .jint n => toString n
  | .jstr s => "\x27" ++ s ++ "\x27"
  | .jarr xs => "[" ++ pyReprList xs ++ "]"
  | .jobj fs => "\x7b" ++ pyReprFields fs ++ "\x7d"

/-- Comma-separated reprs of list elements. -/
def pyReprList : List JVal → String
  | [] => ""
  | [x] => pyRepr x
  | x :: y :: rest => pyRepr x ++ ", " ++ pyReprList (y :: rest)

/-- Comma-separated reprs of dict entries. -/
def pyReprFields : List (String × JVal) → String
  | [] => ""
  | [(k, v)] => "\x27" ++ k ++ "\x27: " ++ pyRepr v
  | (k, v) :: e :: rest => "\x27" ++ k ++ "\x27: " ++ pyRepr v ++ ", " ++ pyReprFields (e :: rest)
end

/-- Python str() of a JSON value. -/
def pyStr : JVal → String
  | .jnull => "None"
  | .jbool true => "True"
  | .jbool false => "False"
  | .jint n => toString n
  | .jstr s => s
  | .jarr xs => "[" ++ pyReprList xs ++ "]"
  | .jobj fs => "\x7b" ++ pyReprFields fs ++ "\x7d"

/-- Python dict.get(key, default) on a JSON object (field list). -/
def dictGet (fields : List (String × JVal)) (key : String) (dflt : JVal) : JVal :=
  match fields with
  | [] => dflt
  | (k, v) :: rest => if k = key then v else dictGet rest key dflt

/-- Python membership test `key in d` for a dict. -/
def hasKey (fields : List (String × JVal)) (key : String) : Bool :=
  fields.any (fun p => p.1 == key)

/-- Substring search on character lists (Python `needle in hay` for strings). -/
def containsList (hay pat : List Char) : Bool :=
  match hay with
  | [] => pat.isPrefixOf ([] : List Char)
  | c :: rest => pat.isPrefixOf (c :: rest) || containsList rest pat

/-- Python substring test `pat in s`. -/
def strContains (s pat : String) : Bool :=
  containsList s.toList pat.toList

/-- Fuel-indexed worker for Python str.replace: replaces non-overlapping
occurrences of pat left to right. The fuel is an upper bound on the
length of the remaining input, so the first equation is never reached
when called with fuel = length. -/
def replaceAux (pat new : List Char) : Nat → List Char → List Char
  | 0, s => s
  | _ + 1, [] => []
  | fuel + 1, c :: rest =>
    if pat ≠ [] ∧ pat.isPrefixOf (c :: rest) then
      new ++ replaceAux pat new fuel ((c :: rest).drop pat.length)
    else
      c :: replaceAux pat new fuel rest

/-- Python s.replace(pat, new) (all occurrences; pat nonempty at every
call site of the source). -/
def strReplace (s pat new : String) : String :=
  String.mk (replaceAux pat.toList new.toList s.toList.length s.toList)

/-- Python s.strip(c) for a single strip character: remove all leading
and trailing occurrences of c. -/
def stripList (c : Char) (l : List Char) : List Char :=
  (((l.dropWhile (fun x => x == c)).reverse.dropWhile (fun x => x == c)).reverse)

/-- Python s.strip(c) on strings. -/
def stripChar (c : Char) (s : String) : String :=
  String.mk (stripList c s.toList)

/-- Python format spec `:<w` — left justify, pad with spaces to width w. -/
def padRight (w : Nat) (s : String) : String :=
  s ++ String.mk (List.replicate (w - s.length) ' ')

/-- Python `needle in hay` where hay is an arbitrary JSON value:
substring test on strings, membership on lists, key test on dicts,
TypeError otherwise. -/
def pyIn (needle : String) : JVal → Except PyExc Bool
  | .jstr s => .ok (strContains s needle)
  | .jarr xs => .ok (xs.any (fun x => keyEq x (.jstr needle)))
  | .jobj fs => .ok (hasKey fs needle)
  | _ => .error .typeError

/-- Accessing dict methods (.get) on a value: AttributeError unless it
is a dict. -/
def asObj : JVal → Except PyExc (List (String × JVal))
  | .jobj fs => .ok fs
  | _ => .error .attributeError

/-- v.get(key, dflt) on an arbitrary value. -/
def pyDictGetE (v : JVal) (key : String) (dflt : JVal) : Except PyExc JVal := do
  let fs ← asObj v
  return dictGet fs key dflt

/-- Python iteration `for x in v`: list elements, string characters
(as one-character strings), dict keys; TypeError otherwise. -/
def pyIterate : JVal → Except PyExc (List JVal)
  | .jarr xs => .ok xs
  | .jstr s => .ok (s.toList.map (fun c => .jstr (String.mk [c])))
  | .jobj fs => .ok (fs.map (fun p => .jstr p.1))
  | _ => .error .typeError

/-- v.replace(pat, new): AttributeError unless v is a string. -/
def pyReplaceV (v : JVal) (pat new : String) : Except PyExc JVal :=
  match v with
  | .jstr s => .ok (.jstr (strReplace s pat new))
  | _ => .error .attributeError

/-! ## Field extractors (src/jenkins-history.py lines 147-204) -/

/-- The color_map dict literal of _color_to_status (lines 149-159). -/
def color_map : List (String × String) :=
  [("blue", "SUCCESS"), ("red", "FAILURE"), ("yellow", "UNSTABLE"),
   ("grey", "NOT_BUILT"), ("disabled", "DISABLED"), ("aborted", "ABORTED"),
   ("blue_anime", "BUILDING"), ("red_anime", "BUILDING"),
   ("yellow_anime", "BUILDING")]

/-- dict.get for the string-to-string color table. -/
def lookupStr : List (String × String) → String → Option String
  | [], _ => none
  | (k, v) :: rest, key => if k = key then some v else lookupStr rest key

/-- _color_to_status (lines 147-160): color_map.get(color, UNKNOWN). -/
def color_to_status (color : String) : String :=
  (lookupStr color_map color).getD "UNKNOWN"

/-- Body of the inner `for cause in causes` loop of _extract_trigger_info
(lines 167-176): some result means the function returns, none means the
loop moves to the next cause. -/
def triggerForCause (cause : JVal) : Except PyExc (Option JVal) := do
  if (← pyIn "userId" cause) then
    let v ← pyDictGetE cause "userId" (.jstr "Unknown User")
    return some v
  else if (← pyIn "shortDescription" cause) then
    let desc ← pyDictGetE cause "shortDescription" (.jstr "")
    if (← pyIn "Started by user" desc) then
      return some (← pyReplaceV desc "Started by user " "")
    else if (← pyIn "Started by" desc) then
      return some (← pyReplaceV desc "Started by " "")
    else
      return some (.jstr "SCM/Timer")
  else
    return none

/-- The inner loop of _extract_trigger_info over the causes list. -/
def triggerScanCauses : List JVal → Except PyExc (Option JVal)
  | [] => .ok none
  | c :: rest => do
    match ← triggerForCause c with
    | some v => return some v
    | none => triggerScanCauses rest

/-- The outer `for action in actions` loop of _extract_trigger_info
(lines 164-177); falls through to the Unknown return (line 177). -/
def triggerScanActions : List JVal → Except PyExc JVal
  | [] => .ok (.jstr "Unknown")
  | a :: rest => do
    let fs ← asObj a
    if keyEq (dictGet fs "_class" .jnull) (.jstr "hudson.model.CauseAction") then
      let causes ← pyIterate (dictGet fs "causes" (.jarr []))
      match ← triggerScanCauses causes with
      | some v => return v
      | none => triggerScanActions rest
    else
      triggerScanActions rest

/-- _extract_trigger_info (lines 162-177). The argument is the value of
build_data.get("actions", []), iterated by the for loop. -/
def extract_trigger_info (actions : JVal) : Except PyExc JVal := do
  triggerScanActions (← pyIterate actions)

/-- Python dict assignment d[k] = v: overwrite in place (keeping the
position and original key object), else append. Keys are compared with
==, assuming hashable keys (guarded by dictAssignE). -/
def dictAssign (d : List (JVal × String)) (k : JVal) (v : String) :
    List (JVal × String) :=
  if d.any (fun p => keyEq p.1 k) then
    d.map (fun p => if keyEq p.1 k then (p.1, v) else p)
  else
    d ++ [(k, v)]

/-- d[k] = v with the hashability check: lists and dicts are unhashable
keys (TypeError). -/
def dictAssignE (d : List (JVal × String)) (k : JVal) (v : String) :
    Except PyExc (List (JVal × String)) :=
  match k with
  | .jarr _ => .error .typeError
  | .jobj _ => .error .typeError
  | _ => .ok (dictAssign d k v)

/-- The inner `for param in params` loop of _extract_parameters
(lines 185-189), threading the parameters dict. -/
def extractParamsInner (parameters : List (JVal × String)) :
    List JVal → Except PyExc (List (JVal × String))
  | [] => .ok parameters
  | p :: rest => do
    let pf ← asObj p
    let name := dictGet pf "name" (.jstr "")
    let value := dictGet pf "value" (.jstr "")
    if truthy name && truthy value then
      let parameters ← dictAssignE parameters name (pyStr value)
      extractParamsInner parameters rest
    else
      extractParamsInner parameters rest

/-- The outer `for action in actions` loop of _extract_parameters
(lines 182-189). -/
def extractParamsActions (parameters : List (JVal × String)) :
    List JVal → Except PyExc (List (JVal × String))
  | [] => .ok parameters
  | a :: rest => do
    let fs ← asObj a
    if keyEq (dictGet fs "_class" .jnull) (.jstr "hudson.model.ParametersAction") then
      let ps ← pyIterate (dictGet fs "parameters" (.jarr []))
      let parameters ← extractParamsInner parameters ps
      extractParamsActions parameters rest
    else
      extractParamsActions parameters rest

/-- _extract_parameters (lines 179-190). The argument is the value of
build_data.get("actions", []). -/
def extract_parameters (actions : JVal) : Except PyExc (List (JVal × String)) := do
  extractParamsActions [] (← pyIterate actions)

/-- _format_parameters (lines 192-204). -/
def format_parameters (parameters : List (JVal × String)) : String :=
  if parameters.isEmpty then "None"
  else
    let param_strs := parameters.map (fun p => pyStr p.1 ++ "=" ++ p.2)
    let result := String.intercalate ", " param_strs
    if result.length > 25 then String.mk (result.toList.take 22) ++ "..."
    else result

/-! ## Path resolution and endpoints (lines 52-55, 82-87, 116) -/

/-- The endpoint built by list_jobs (lines 54-55): the workspace is
stripped of slashes and used unmodified. -/
def list_jobs_endpoint (workspace : String) : String :=
  "/job/" ++ stripChar '/' workspace ++ "/api/json?tree=jobs[name,url,color]"

/-- The endpoint built by job_history (lines 84-87): the path is
stripped of slashes and every remaining slash replaced by /job/. -/
def job_history_endpoint (job_path : String) : String :=
  "/job/" ++ strReplace (stripChar '/' job_path) "/" "/job/" ++
    "/api/json?tree=builds[number,url]"

/-! ## Build detail display (lines 26-38, 114-145) -/

/-- Outcome of one GET against the Jenkins API, as seen by
JenkinsClient.get: a parsed JSON body, a requests.RequestException
(transport error or non-2xx status via raise_for_status), or a
ValueError from response.json(). -/
inductive HttpResult where
  | success (body : JVal)
  | requestError (msg : String)
  | jsonError (msg : String)

/-- JenkinsClient.get (lines 26-38): returns the parsed JSON, or prints
an error and calls sys.exit(1) on RequestException or ValueError. The
Except error carries the process exit status of the sys.exit call;
SystemExit is not an Exception and is never caught downstream. -/
def client_get : HttpResult → Except Nat JVal
  | .success j => .ok j
  | .requestError _ => .error 1
  | .jsonError _ => .error 1

/-- The result column read (line 122): build_data.get with a default
that applies only when the key is absent. -/
def result_of (fields : List (String × JVal)) : JVal :=
  dictGet fields "result" (.jstr "UNKNOWN")

/-- The timestamp read (line 123). -/
def timestamp_of (fields : List (String × JVal)) : JVal :=
  dictGet fields "timestamp" (.jint 0)

/-- datetime.fromtimestamp(t / 1000).strftime(...) of lines 134-137,
abstracted over the local-time formatter strf (which receives the epoch
milliseconds): integers and booleans divide by 1000, any other truthy
value raises TypeError. -/
def formatTimestampE (strf : Int → String) : JVal → Except PyExc String
  | .jint t => .ok (strf t)
  | .jbool b => .ok (strf (if b then 1 else 0))
  | _ => .error .typeError

/-- The build_time computation (lines 134-137): falsy timestamps render
as the literal Unknown. -/
def build_time_of (strf : Int → String) (fields : List (String × JVal)) :
    Except PyExc String :=
  if truthy (timestamp_of fields) then formatTimestampE strf (timestamp_of fields)
  else .ok "Unknown"

/-- Python format(v, "<w") as used by the f-string of line 142: strings
are padded, integers print in decimal, bools format through int (True
gives 1), while None, lists and dicts do not support a format spec and
raise TypeError. -/
def pyFormatPad (w : Nat) : JVal → Except PyExc String
  | .jstr s => .ok (padRight w s)
  | .jint n => .ok (padRight w (toString n))
  | .jbool b => .ok (padRight w (toString (if b then (1 : Int) else 0)))
  | _ => .error .typeError

/-- The print of line 142: each column left-justified to its width; the
three JSON-valued columns go through format(v, "<w") and can raise. -/
def renderRow (number result triggered_by : JVal) (build_time params_str : String) :
    Except PyExc String := do
  let c1 ← pyFormatPad 8 number
  let c2 ← pyFormatPad 12 result
  let c3 ← pyFormatPad 20 triggered_by
  return c1 ++ " " ++ c2 ++ " " ++ c3 ++ " " ++ padRight 20 build_time ++ " " ++
    padRight 30 params_str

/-- The body of the try block of _display_build_details after a
successful GET (lines 119-142): field reads, extraction, formatting and
the printed row. A PyExc models any exception raised while processing
the payload. -/
def process_build_data (strf : Int → String) (build_data : JVal)
    (build_number : JVal) : Except PyExc String := do
  let fields ← asObj build_data
  let result := result_of fields
  let _duration := dictGet fields "duration" (.jint 0)
  let triggered_by ← extract_trigger_info (dictGet fields "actions" (.jarr []))
  let parameters ← extract_parameters (dictGet fields "actions" (.jarr []))
  let build_time ← build_time_of strf fields
  let params_str := format_parameters parameters
  renderRow build_number result triggered_by build_time params_str

/-- What one iteration of the history loop prints for a build. -/
inductive DisplayOutcome where
  | row (line : String)
  | logged (line : String)

/-- The except-branch message of line 145. -/
def log_line (build_number : JVal) : String :=
  "Error getting details for build #" ++ pyStr build_number

/-- _display_build_details (lines 114-145) with the GET response made
explicit. The except Exception handler catches processing errors and
logs them, but a SystemExit raised inside client_get is not an
Exception and propagates, aborting the invocation (Except.error). -/
def display_build_details (strf : Int → String) (resp : HttpResult)
    (build_number : JVal) : Except Nat DisplayOutcome :=
  match client_get resp with
  | .error code => .error code
  | .ok build_data =>
    match process_build_data strf build_data build_number with
    | .ok line => .ok (.row line)
    | .error _ => .ok (.logged (log_line build_number))

/-- The `for build in builds[:20]` loop of job_history (lines 103-105):
each displayed build is a pair of its number and the response its GET
produces. An Except.error means the whole invocation terminated. -/
def history_loop (strf : Int → String) :
    List (JVal × HttpResult) → Except Nat (List DisplayOutcome)
  | [] => .ok []
  | (n, resp) :: rest => do
    let o ← display_build_details strf resp n
    let os ← history_loop strf rest
    return o :: os

/-! ## Specification-side definitions used to state the claims -/

/-- The parameter entries of one parameters list that the spec says
are kept: those with truthy name and truthy value, in order. Written
from the words of the spec for comparison with extract_parameters. -/
def innerKept (ps : List JVal) : List (JVal × JVal) :=
  ps.filterMap fun p =>
    match p with
    | .jobj pf =>
      let name := dictGet pf "name" (.jstr "")
      let value := dictGet pf "value" (.jstr "")
      if truthy name && truthy value then some (name, value) else none
    | _ => none

/-- The kept parameter entries contributed by one action: empty unless
it is a ParametersAction whose parameters field holds a JSON list. -/
def keptParamsOfAction (a : JVal) : List (JVal × JVal) :=
  match a with
  | .jobj fs =>
    if keyEq (dictGet fs "_class" .jnull) (.jstr "hudson.model.ParametersAction") then
      match dictGet fs "parameters" (.jarr []) with
      | .jarr ps => innerKept ps
      | _ => []
    else []
  | _ => []

/-- The parameters that the spec says are kept: for every
ParametersAction, its parameter entries with truthy name and value, in
order of appearance across the whole actions list. -/
def keptParams (actions : List JVal) : List (JVal × JVal) :=
  actions.flatMap keptParamsOfAction

/-- Folding the kept parameters into a dict with last-wins overwrite
semantics, as the spec describes. -/
def keptFold (ps : List (JVal × JVal)) : List (JVal × String) :=
  ps.foldl (fun acc p => dictAssign acc p.1 (pyStr p.2)) []

/-- A cause object none of whose trigger sources can strip to the empty
string: a present userId stringifies to a nonempty string, and a
present string shortDescription does not reduce to the empty string
under either prefix removal. Used as the hypothesis of the amended C4. -/
def goodCause (c : JVal) : Bool :=
  match c with
  | .jobj fs =>
    (if hasKey fs "userId" then pyStr (dictGet fs "userId" (.jstr "Unknown User")) != ""
     else true) &&
    (if hasKey fs "shortDescription" then
      match dictGet fs "shortDescription" (.jstr "") with
      | .jstr d =>
        strReplace d "Started by user " "" != "" &&
        strReplace d "Started by " "" != ""
      | _ => true
     else true)
  | _ => true

/-- An action all of whose causes are good in the sense of goodCause.
Only a causes field holding a JSON list contributes causes that can be
consulted; any other shape never produces a result value. -/
def goodAction (a : JVal) : Bool :=
  match a with
  | .jobj fs =>
    (match dictGet fs "causes" (.jarr []) with
     | .jarr cs => cs.all goodCause
     | _ => true)
  | _ => true

/-- All causes of every action are good in the sense of goodCause. -/
def goodActions (actions : JVal) : Bool :=
  match actions with
  | .jarr l => l.all goodAction
  | _ => true

/-! ## Helper lemmas -/

theorem ebind_ok {e a b : Type} (x : a) (f : a → Except e b) :
    (Except.ok x : Except e a) >>= f = f x := rfl

theorem ebind_error {e a b : Type} (err : e) (f : a → Except e b) :
    (Except.error err : Except e a) >>= f = Except.error err := rfl

theorem emap_ok {e a b : Type} (g : a → b) (x : a) :
    g <$> (Except.ok x : Except e a) = Except.ok (g x) := rfl

theorem emap_error {e a b : Type} (g : a → b) (err : e) :
    g <$> (Except.error err : Except e a) = Except.error err := rfl

theorem epure {e a : Type} (x : a) : (pure x : Except e a) = Except.ok x := rfl

theorem lookupStr_mem_values : ∀ (t : List (String × String)) (key v : String),
    lookupStr t key = some v → v ∈ t.map Prod.snd := by
  intro t
  induction t with
  | nil => intro key v h; simp [lookupStr] at h
  | cons p rest ih =>
    obtain ⟨k, w⟩ := p
    intro key v h
    simp only [lookupStr] at h
    by_cases hk : k = key
    · rw [if_pos hk] at h
      injection h with h
      simp [h]
    · rw [if_neg hk] at h
      simpa using Or.inr (ih key v h)

theorem lookupStr_eq_none : ∀ (t : List (String × String)) (key : String),
    (∀ p ∈ t, p.1 ≠ key) → lookupStr t key = none := by
  intro t
  induction t with
  | nil => intro key _; rfl
  | cons p rest ih =>
    obtain ⟨k, w⟩ := p
    intro key h
    simp only [lookupStr]
    rw [if_neg (h (k, w) (by simp))]
    exact ih key (fun p hp => h p (by simp [hp]))

theorem takeWhile_beq_replicate (c : Char) (l : List Char) :
    l.takeWhile (fun x => x == c) =
      List.replicate (l.takeWhile (fun x => x == c)).length c := by
  rw [List.eq_replicate_length]
  intro b hb
  have := List.mem_takeWhile_imp hb
  exact eq_of_beq this

theorem head?_dropWhile_beq (c : Char) (l : List Char) :
    ∀ x, (l.dropWhile (fun y => y == c)).head? = some x → x ≠ c := by
  intro x hx
  have h := List.head?_dropWhile_not (fun y => y == c) l
  rw [hx] at h
  intro e
  rw [e] at h
  simp at h

theorem stripList_spec (c : Char) (l : List Char) :
    (∃ a b, l = List.replicate a c ++ stripList c l ++ List.replicate b c)
    ∧ (∀ x, (stripList c l).head? = some x → x ≠ c)
    ∧ (∀ x, (stripList c l).getLast? = some x → x ≠ c) := by
  have hstrip : stripList c l =
      ((l.dropWhile (fun y => y == c)).reverse.dropWhile (fun y => y == c)).reverse := rfl
  have hdecomp1 := List.takeWhile_append_dropWhile (fun y => y == c) l
  have hdecomp2 := List.takeWhile_append_dropWhile (fun y => y == c)
      (l.dropWhile (fun y => y == c)).reverse
  have hl1eq : l.dropWhile (fun y => y == c) =
      stripList c l ++
        ((l.dropWhile (fun y => y == c)).reverse.takeWhile (fun y => y == c)).reverse := by
    have h := congrArg List.reverse hdecomp2
    rw [List.reverse_append, List.reverse_reverse, ← hstrip] at h
    exact h.symm
  have hrev : (((l.dropWhile (fun y => y == c)).reverse.takeWhile (fun y => y == c)).reverse
      : List Char) =
      List.replicate
        ((l.dropWhile (fun y => y == c)).reverse.takeWhile (fun y => y == c)).length c := by
    conv_lhs => rw [takeWhile_beq_replicate c (l.dropWhile (fun y => y == c)).reverse]
    rw [List.reverse_replicate]
  refine ⟨⟨(l.takeWhile (fun y => y == c)).length,
      ((l.dropWhile (fun y => y == c)).reverse.takeWhile (fun y => y == c)).length, ?_⟩, ?_, ?_⟩
  · conv_lhs => rw [← hdecomp1, hl1eq, hrev, takeWhile_beq_replicate c l]
    exact (List.append_assoc _ _ _).symm
  · intro x hx
    rcases he : stripList c l with _ | ⟨y, rest⟩
    · rw [he] at hx; simp at hx
    · rw [he] at hx
      have hxy : y = x := by simpa using hx
      have hhead : (l.dropWhile (fun z => z == c)).head? = some y := by
        rw [hl1eq, he]
        simp
      exact hxy ▸ head?_dropWhile_beq c l y hhead
  · intro x hx
    rw [hstrip, List.getLast?_reverse] at hx
    exact head?_dropWhile_beq c (l.dropWhile (fun y => y == c)).reverse x hx

theorem replaceAux_single (c : Char) (new : List Char) :
    ∀ (fuel : Nat) (l : List Char), l.length ≤ fuel →
      replaceAux [c] new fuel l = l.flatMap (fun x => if x = c then new else [x]) := by
  intro fuel
  induction fuel with
  | zero =>
    intro l hlen
    have : l = [] := List.eq_nil_of_length_eq_zero (Nat.le_zero.1 hlen)
    subst this
    rfl
  | succ n ih =>
    intro l hlen
    match l with
    | [] => rfl
    | x :: rest =>
      simp only [replaceAux]
      by_cases hx : x = c
      · subst hx
        rw [if_pos ⟨by simp, by simp [List.isPrefixOf]⟩]
        simp only [List.length_cons, List.length_nil, Nat.zero_add, List.drop_succ_cons,
          List.drop_zero]
        rw [ih rest (Nat.succ_le_succ_iff.mp (by simpa using hlen))]
        simp
      · rw [if_neg]
        · rw [ih rest (Nat.succ_le_succ_iff.mp (by simpa using hlen))]
          simp [hx]
        · rintro ⟨-, hpre⟩
          have hcx : c = x := by simpa [List.isPrefixOf] using hpre
          exact hx hcx.symm

theorem dictGet_filter_ne (fs : List (String × JVal)) (k : String) (d : JVal) :
    dictGet (fs.filter (fun p => p.1 != k)) k d = d := by
  induction fs with
  | nil => rfl
  | cons p rest ih =>
    obtain ⟨k1, v1⟩ := p
    by_cases h : k1 = k
    · subst h
      simpa [List.filter_cons] using ih
    · simp only [List.filter_cons]
      rw [if_pos (by simpa using h)]
      simpa [dictGet, h] using ih

theorem scanActions_cons_obj (fs : List (String × JVal)) (rest : List JVal) :
    triggerScanActions (.jobj fs :: rest) =
      if keyEq (dictGet fs "_class" .jnull) (.jstr "hudson.model.CauseAction") then
        (pyIterate (dictGet fs "causes" (.jarr []))).bind fun causes =>
          (triggerScanCauses causes).bind fun r =>
            match r with
            | some v => .ok v
            | none => triggerScanActions rest
      else triggerScanActions rest := rfl

theorem scanCauses_unmatched_none : ∀ cs : List JVal,
    (∀ c ∈ cs, ∃ cf : List (String × JVal), c = .jobj cf ∧
      hasKey cf "userId" = false ∧ hasKey cf "shortDescription" = false) →
    triggerScanCauses cs = .ok none := by
  intro cs
  induction cs with
  | nil => intro _; rfl
  | cons c rest ih =>
    intro h
    obtain ⟨cf, rfl, hu, hd⟩ := h c (by simp)
    have hfc : triggerForCause (.jobj cf) = .ok none := by
      simp [triggerForCause, pyIn, hu, hd, ebind_ok, epure]
    show (triggerForCause (.jobj cf)).bind _ = _
    rw [hfc]
    exact ih (fun c hc => h c (by simp [hc]))

/-! ## Claim theorems -/

/-- Claim C1, counterexample: for the single CauseAction whose only
cause has shortDescription "Started by timer" and no userId, the code
does not return "SCM/Timer": the description contains "Started by", so
the code strips that prefix and returns "timer". -/
theorem c1_counterexample :
    extract_trigger_info (.jarr [.jobj [("_class", .jstr "hudson.model.CauseAction"),
      ("causes", .jarr [.jobj [("shortDescription", .jstr "Started by timer")]])]]) =
      .ok (.jstr "timer")
    ∧ "timer" ≠ "SCM/Timer" := ⟨rfl, by decide⟩

/-- Claim C1 as amended: for that input the extraction returns "timer"
(the remainder after stripping "Started by "); the literal "SCM/Timer"
is returned only when the description does not contain "Started by" at
all, as for "Scheduled run". -/
theorem c1_amended :
    extract_trigger_info (.jarr [.jobj [("_class", .jstr "hudson.model.CauseAction"),
      ("causes", .jarr [.jobj [("shortDescription", .jstr "Started by timer")]])]]) =
      .ok (.jstr "timer")
    ∧ extract_trigger_info (.jarr [.jobj [("_class", .jstr "hudson.model.CauseAction"),
      ("causes", .jarr [.jobj [("shortDescription", .jstr "Scheduled run")]])]]) =
      .ok (.jstr "SCM/Timer") := ⟨rfl, rfl⟩

/-- Claim C2, counterexample: a transport error of the GET for the
first displayed build makes JenkinsClient.get call sys.exit(1); the
SystemExit is not caught by the except Exception handler of
_display_build_details, so the whole invocation terminates (the second
build is never displayed) instead of being logged and skipped. -/
theorem c2_counterexample :
    history_loop (fun _ => "") [(.jint 7, .requestError "connection refused"),
      (.jint 6, .success (.jobj []))] = .error 1 := rfl

/-- Claim C2 as amended: when every GET of the displayed window
succeeds, any failure while parsing or rendering an individual build
payload is caught, logged with that build number, and the loop
continues: the loop never terminates the invocation and produces one
outcome (row or log line) per build. -/
theorem c2_amended : ∀ (strf : Int → String) (builds : List (JVal × JVal)),
    history_loop strf (builds.map fun p => (p.1, HttpResult.success p.2)) =
      .ok (builds.map fun p =>
        match process_build_data strf p.2 p.1 with
        | .ok line => DisplayOutcome.row line
        | .error _ => DisplayOutcome.logged (log_line p.1)) := by
  intro strf builds
  induction builds with
  | nil => rfl
  | cons b rest ih =>
    obtain ⟨n, j⟩ := b
    simp only [List.map_cons, history_loop, display_build_details, client_get]
    cases h : process_build_data strf j n with
    | ok line =>
      simp only [h, ih]
      rfl
    | error e =>
      simp only [h, ih]
      rfl

/-- Claim C3, counterexample: for a payload whose result field is
present but null, the rendered value is not "UNKNOWN": formatting None
with a column width raises TypeError, so the build renders no row at
all and is logged as an error instead. -/
theorem c3_counterexample :
    display_build_details (fun _ => "") (.success (.jobj [("result", .jnull)])) (.jint 1) =
      .ok (.logged "Error getting details for build #1") := rfl

/-- Claim C3 as amended: an absent result field defaults to "UNKNOWN";
a null result is kept as None, whose column formatting raises
TypeError (so the row is logged-and-skipped rather than rendered); a
null, absent or zero timestamp renders as "Unknown". -/
theorem c3_amended : ∀ (strf : Int → String) (fields : List (String × JVal)),
    result_of (fields.filter (fun p => p.1 != "result")) = .jstr "UNKNOWN"
    ∧ pyStr (result_of (("result", .jnull) :: fields)) = "None"
    ∧ pyFormatPad 12 (result_of (("result", .jnull) :: fields)) = .error .typeError
    ∧ build_time_of strf (fields.filter (fun p => p.1 != "timestamp")) = .ok "Unknown"
    ∧ build_time_of strf (("timestamp", .jnull) :: fields) = .ok "Unknown"
    ∧ build_time_of strf (("timestamp", .jint 0) :: fields) = .ok "Unknown" := by
  intro strf fields
  refine ⟨?_, ?_, ?_, ?_, ?_, ?_⟩
  · show dictGet _ "result" (.jstr "UNKNOWN") = .jstr "UNKNOWN"
    exact dictGet_filter_ne fields "result" (.jstr "UNKNOWN")
  · rfl
  · rfl
  · show build_time_of strf _ = .ok "Unknown"
    simp only [build_time_of, timestamp_of]
    rw [dictGet_filter_ne fields "timestamp" (.jint 0)]
    rfl
  · rfl
  · rfl

/-- Claim C5, counterexample: an actions list whose first CauseAction
holds a single cause without userId and shortDescription, followed by a
CauseAction whose cause has userId "alice", yields "alice", not
"Unknown": the scan continues past the first CauseAction. -/
theorem c5_counterexample :
    extract_trigger_info (.jarr [
      .jobj [("_class", .jstr "hudson.model.CauseAction"), ("causes", .jarr [.jobj []])],
      .jobj [("_class", .jstr "hudson.model.CauseAction"),
        ("causes", .jarr [.jobj [("userId", .jstr "alice")]])]]) = .ok (.jstr "alice")
    ∧ "alice" ≠ "Unknown" := ⟨rfl, by decide⟩

/-- Claim C5 as amended: within a CauseAction, only the first matching
cause is used, but when a CauseAction contains no matching cause the
scan moves on to the remaining actions (including later CauseActions);
dropping such an exhausted CauseAction from the front leaves the result
unchanged, and "Unknown" results only when no action produces a match. -/
theorem c5_amended : ∀ (fs : List (String × JVal)) (cs rest : List JVal),
    keyEq (dictGet fs "_class" .jnull) (.jstr "hudson.model.CauseAction") = true →
    dictGet fs "causes" (.jarr []) = .jarr cs →
    (∀ c ∈ cs, ∃ cf : List (String × JVal), c = .jobj cf ∧
      hasKey cf "userId" = false ∧ hasKey cf "shortDescription" = false) →
    extract_trigger_info (.jarr (.jobj fs :: rest)) = extract_trigger_info (.jarr rest) := by
  intro fs cs rest h1 h2 h3
  show triggerScanActions (.jobj fs :: rest) = triggerScanActions rest
  rw [scanActions_cons_obj, if_pos h1, h2]
  show (triggerScanCauses cs).bind _ = _
  rw [scanCauses_unmatched_none cs h3]
  rfl

/-- Witness for the amended C5: the counterexample instance, where the
exhausted first CauseAction is dropped without changing the result. -/
theorem c5_witness :
    extract_trigger_info (.jarr [
      .jobj [("_class", .jstr "hudson.model.CauseAction"), ("causes", .jarr [.jobj []])],
      .jobj [("_class", .jstr "hudson.model.CauseAction"),
        ("causes", .jarr [.jobj [("userId", .jstr "alice")]])]]) =
    extract_trigger_info (.jarr [
      .jobj [("_class", .jstr "hudson.model.CauseAction"),
        ("causes", .jarr [.jobj [("userId", .jstr "alice")]])]]) := by
  refine c5_amended [("_class", .jstr "hudson.model.CauseAction"),
    ("causes", .jarr [.jobj []])] [.jobj []] _ rfl rfl ?_
  intro c hc
  rcases List.mem_singleton.mp hc with rfl
  exact ⟨[], rfl, rfl, rfl⟩

/-- Claim C6: both commands strip all leading and trailing slashes (the
stripped path neither starts nor ends with a slash, and the input is
slashes, then the stripped path, then slashes); job-history replaces
every remaining slash by /job/ in its endpoint (so a/b/c becomes
a/job/b/job/c), while list-jobs embeds the stripped workspace
unmodified, with no /job/ expansion. -/
theorem c6_theorem : ∀ s : String,
    (∃ a b, s.toList = List.replicate a '/' ++ (stripChar '/' s).toList ++
      List.replicate b '/')
    ∧ (∀ x, (stripChar '/' s).toList.head? = some x → x ≠ '/')
    ∧ (∀ x, (stripChar '/' s).toList.getLast? = some x → x ≠ '/')
    ∧ job_history_endpoint s =
        "/job/" ++ String.mk ((stripChar '/' s).toList.flatMap
          (fun c => if c = '/' then "/job/".toList else [c])) ++
          "/api/json?tree=builds[number,url]"
    ∧ list_jobs_endpoint s = "/job/" ++ stripChar '/' s ++
        "/api/json?tree=jobs[name,url,color]"
    ∧ job_history_endpoint "a/b/c" = "/job/a/job/b/job/c/api/json?tree=builds[number,url]" := by
  intro s
  obtain ⟨hdec, hhead, hlast⟩ := stripList_spec '/' s.toList
  refine ⟨hdec, hhead, hlast, ?_, rfl, by decide⟩
  have hrep : strReplace (stripChar '/' s) "/" "/job/" =
      String.mk ((stripChar '/' s).toList.flatMap
        (fun c => if c = '/' then "/job/".toList else [c])) := by
    show String.mk (replaceAux "/".toList "/job/".toList
        (stripChar '/' s).toList.length (stripChar '/' s).toList) = _
    rw [show String.toList "/" = ['/'] from rfl]
    rw [replaceAux_single '/' "/job/".toList (stripChar '/' s).toList.length
      (stripChar '/' s).toList (Nat.le_refl _)]
  show "/job/" ++ strReplace (stripChar '/' s) "/" "/job/" ++
      "/api/json?tree=builds[number,url]" = _
  rw [hrep]

/-- Claim C8: parameter rendering returns the literal "None" for an
empty map; otherwise it joins key=value pairs with a comma-space in map
order, leaves the joined string unmodified iff its length is at most 25
characters, and for longer strings returns its first 22 characters with
an appended ellipsis (which is never equal to the joined string). -/
theorem c8_theorem :
    format_parameters [] = "None"
    ∧ ∀ (ps : List (JVal × String)) (j : String), ps ≠ [] →
      j = String.intercalate ", " (ps.map fun p => pyStr p.1 ++ "=" ++ p.2) →
      (j.length ≤ 25 → format_parameters ps = j)
      ∧ (25 < j.length →
          format_parameters ps = String.mk (j.toList.take 22) ++ "..."
          ∧ format_parameters ps ≠ j) := by
  refine ⟨rfl, ?_⟩
  intro ps j hne hj
  have hie : ps.isEmpty = false := by
    cases ps with
    | nil => exact absurd rfl hne
    | cons a l => rfl
  constructor
  · intro hle
    simp only [format_parameters, hie, Bool.false_eq_true, if_false, ← hj]
    rw [if_neg (by omega)]
  · intro hgt
    have heq : format_parameters ps = String.mk (j.toList.take 22) ++ "..." := by
      simp only [format_parameters, hie, Bool.false_eq_true, if_false, ← hj]
      rw [if_pos (by omega)]
    refine ⟨heq, ?_⟩
    intro hcontra
    rw [heq] at hcontra
    have hlen := congrArg String.length hcontra
    rw [String.length_append] at hlen
    have h1 : (String.mk (j.toList.take 22)).length = 22 := by
      show (j.toList.take 22).length = 22
      rw [List.length_take]
      have : j.toList.length = j.length := rfl
      omega
    have h2 : ("..." : String).length = 3 := rfl
    omega

/-- Witness for C8: a 25-character joined string renders unmodified and
a 26-character one is truncated to 22 characters plus the ellipsis. -/
theorem c8_witness :
    format_parameters [(JVal.jstr "KEY", "123456789012345678901")] =
      "KEY=123456789012345678901"
    ∧ format_parameters [(JVal.jstr "KEY", "1234567890123456789012")] =
      "KEY=123456789012345678..." := by
  constructor
  · exact (c8_theorem.2 [(JVal.jstr "KEY", "123456789012345678901")]
      "KEY=123456789012345678901" (by simp) rfl).1 (by decide)
  · exact ((c8_theorem.2 [(JVal.jstr "KEY", "1234567890123456789012")]
      "KEY=1234567890123456789012" (by simp) rfl).2 (by decide)).1.trans (by decide)

/-- Claim C9: status derivation follows the fixed table exactly, every
unlisted color code maps to "UNKNOWN", and the result always lies in
the closed status set (never null). -/
theorem c9_theorem : ∀ color : String,
    color_to_status color ∈
      ["SUCCESS", "FAILURE", "UNSTABLE", "NOT_BUILT", "DISABLED", "ABORTED",
       "BUILDING", "UNKNOWN"]
    ∧ (color ∉ ["blue", "red", "yellow", "grey", "disabled", "aborted",
        "blue_anime", "red_anime", "yellow_anime"] →
        color_to_status color = "UNKNOWN")
    ∧ color_to_status "blue" = "SUCCESS" ∧ color_to_status "red" = "FAILURE"
    ∧ color_to_status "yellow" = "UNSTABLE" ∧ color_to_status "grey" = "NOT_BUILT"
    ∧ color_to_status "disabled" = "DISABLED" ∧ color_to_status "aborted" = "ABORTED"
    ∧ color_to_status "blue_anime" = "BUILDING"
    ∧ color_to_status "red_anime" = "BUILDING"
    ∧ color_to_status "yellow_anime" = "BUILDING" := by
  intro color
  refine ⟨?_, ?_, rfl, rfl, rfl, rfl, rfl, rfl, rfl, rfl, rfl⟩
  · rcases h : lookupStr color_map color with _ | v
    · simp [color_to_status, h]
    · have hv := lookupStr_mem_values color_map color v h
      simp only [color_map, List.map, List.mem_cons, List.not_mem_nil, or_false] at hv
      have hcv : color_to_status color = v := by simp [color_to_status, h]
      rw [hcv]
      rcases hv with rfl | rfl | rfl | rfl | rfl | rfl | rfl | rfl | rfl
      all_goals decide
  · intro h
    simp only [List.mem_cons, List.not_mem_nil, or_false] at h
    push_neg at h
    obtain ⟨h1, h2, h3, h4, h5, h6, h7, h8, h9⟩ := h
    have hn : lookupStr color_map color = none := by
      apply lookupStr_eq_none
      intro p hp
      simp only [color_map, List.mem_cons, List.not_mem_nil, or_false] at hp
      rcases hp with rfl | rfl | rfl | rfl | rfl | rfl | rfl | rfl | rfl
      exacts [fun e => h1 e.symm, fun e => h2 e.symm, fun e => h3 e.symm,
        fun e => h4 e.symm, fun e => h5 e.symm, fun e => h6 e.symm,
        fun e => h7 e.symm, fun e => h8 e.symm, fun e => h9 e.symm]
    simp [color_to_status, hn]

/-- Witness for C9: an unlisted color maps to "UNKNOWN". -/
theorem c9_witness : color_to_status "purple" = "UNKNOWN" :=
  (c9_theorem ("purple")).2.1 (by decide)

/-! ## Parameter-extraction lemmas -/

theorem exbind_ok {a b : Type} (x : a) (f : a → Except PyExc b) :
    Except.bind (Except.ok x) f = f x := rfl

theorem exbind_error {a b : Type} (err : PyExc) (f : a → Except PyExc b) :
    Except.bind (Except.error err) f = Except.error err := rfl

theorem paramsActions_cons_obj (init : List (JVal × String))
    (fs : List (String × JVal)) (rest : List JVal) :
    extractParamsActions init (.jobj fs :: rest) =
      if keyEq (dictGet fs "_class" .jnull) (.jstr "hudson.model.ParametersAction") then
        Except.bind (pyIterate (dictGet fs "parameters" (.jarr []))) fun ps =>
          Except.bind (extractParamsInner init ps) fun d => extractParamsActions d rest
      else extractParamsActions init rest := rfl

theorem paramsActions_cons_notobj (init : List (JVal × String)) (a : JVal)
    (rest : List JVal) (h : asObj a = .error .attributeError) :
    extractParamsActions init (a :: rest) = .error .attributeError := by
  show Except.bind (asObj a) _ = _
  rw [h]
  rfl

theorem paramsActions_append : ∀ (l1 l2 : List JVal) (init : List (JVal × String)),
    extractParamsActions init (l1 ++ l2) =
      Except.bind (extractParamsActions init l1) fun d => extractParamsActions d l2 := by
  intro l1
  induction l1 with
  | nil => intro l2 init; rfl
  | cons a rest ih =>
    intro l2 init
    rw [List.cons_append]
    cases a with
    | jobj fs =>
      rw [paramsActions_cons_obj, paramsActions_cons_obj]
      by_cases hc : keyEq (dictGet fs "_class" .jnull)
          (.jstr "hudson.model.ParametersAction") = true
      · rw [if_pos hc, if_pos hc]
        cases hit : pyIterate (dictGet fs "parameters" (.jarr [])) with
        | ok ps =>
          simp only [exbind_ok]
          cases hin : extractParamsInner init ps with
          | ok d => simp only [exbind_ok]; exact ih l2 d
          | error e => simp only [exbind_error]
        | error e => simp only [exbind_error]
      · rw [if_neg hc, if_neg hc]
        exact ih l2 init
    | jnull => rfl
    | jbool b => rfl
    | jint n => rfl
    | jstr s => rfl
    | jarr xs => rfl

theorem paramsInner_cons_obj (init : List (JVal × String)) (pf : List (String × JVal))
    (rest : List JVal) :
    extractParamsInner init (.jobj pf :: rest) =
      if truthy (dictGet pf "name" (.jstr "")) && truthy (dictGet pf "value" (.jstr ""))
      then
        Except.bind (dictAssignE init (dictGet pf "name" (.jstr ""))
            (pyStr (dictGet pf "value" (.jstr ""))))
          fun d => extractParamsInner d rest
      else extractParamsInner init rest := rfl

theorem paramsInner_fold : ∀ (ps : List JVal) (init d : List (JVal × String)),
    extractParamsInner init ps = .ok d →
    d = (innerKept ps).foldl (fun acc p => dictAssign acc p.1 (pyStr p.2)) init := by
  intro ps
  induction ps with
  | nil =>
    intro init d h
    injection h with h
    simp [innerKept, h.symm]
  | cons p rest ih =>
    intro init d h
    cases p with
    | jobj pf =>
      rw [paramsInner_cons_obj] at h
      by_cases hcond : (truthy (dictGet pf "name" (.jstr ""))
          && truthy (dictGet pf "value" (.jstr ""))) = true
      · rw [if_pos hcond] at h
        cases hname : dictGet pf "name" (.jstr "") with
        | jarr xs =>
          rw [hname] at h
          simp only [dictAssignE, exbind_error] at h
          exact Except.noConfusion h
        | jobj f2 =>
          rw [hname] at h
          simp only [dictAssignE, exbind_error] at h
          exact Except.noConfusion h
        | jnull =>
          rw [hname] at h
          simp only [dictAssignE, exbind_ok] at h
          rw [ih _ _ h, ← hname]
          simp only [innerKept, List.filterMap_cons, hcond, if_true, List.foldl_cons]
        | jbool b =>
          rw [hname] at h
          simp only [dictAssignE, exbind_ok] at h
          rw [ih _ _ h, ← hname]
          simp only [innerKept, List.filterMap_cons, hcond, if_true, List.foldl_cons]
        | jint n =>
          rw [hname] at h
          simp only [dictAssignE, exbind_ok] at h
          rw [ih _ _ h, ← hname]
          simp only [innerKept, List.filterMap_cons, hcond, if_true, List.foldl_cons]
        | jstr s =>
          rw [hname] at h
          simp only [dictAssignE, exbind_ok] at h
          rw [ih _ _ h, ← hname]
          simp only [innerKept, List.filterMap_cons, hcond, if_true, List.foldl_cons]
      · rw [if_neg hcond] at h
        rw [ih _ _ h]
        simp only [innerKept, List.filterMap_cons, hcond, Bool.false_eq_true, if_false]
    | jnull => exact Except.noConfusion h
    | jbool b => exact Except.noConfusion h
    | jint n => exact Except.noConfusion h
    | jstr s => exact Except.noConfusion h
    | jarr xs => exact Except.noConfusion h

theorem paramsActions_fold : ∀ (acts : List JVal) (init d : List (JVal × String)),
    extractParamsActions init acts = .ok d →
    d = (keptParams acts).foldl (fun acc p => dictAssign acc p.1 (pyStr p.2)) init := by
  intro acts
  induction acts with
  | nil =>
    intro init d h
    injection h with h
    simp [keptParams, h.symm]
  | cons a rest ih =>
    intro init d h
    have hkp : keptParams (a :: rest) = keptParamsOfAction a ++ keptParams rest := by
      simp [keptParams, List.flatMap_cons]
    cases a with
    | jobj fs =>
      rw [paramsActions_cons_obj] at h
      by_cases hc : keyEq (dictGet fs "_class" .jnull)
          (.jstr "hudson.model.ParametersAction") = true
      · rw [if_pos hc] at h
        cases hpar : dictGet fs "parameters" (.jarr []) with
        | jarr l =>
          rw [hpar] at h
          simp only [pyIterate, exbind_ok] at h
          cases hin : extractParamsInner init l with
          | error e => rw [hin] at h; exact Except.noConfusion h
          | ok d1 =>
            rw [hin] at h
            simp only [exbind_ok] at h
            rw [ih _ _ h, paramsInner_fold l init d1 hin, hkp]
            rw [List.foldl_append]
            simp [keptParamsOfAction, hc, hpar]
        | jstr s =>
          rw [hpar] at h
          simp only [pyIterate, exbind_ok] at h
          cases hs : s.toList with
          | nil =>
            rw [hs] at h
            simp only [List.map_nil] at h
            have hin : extractParamsInner init ([] : List JVal) = .ok init := rfl
            rw [show extractParamsInner init ([] : List JVal) = .ok init from rfl,
              exbind_ok] at h
            rw [ih _ _ h, hkp]
            simp [keptParamsOfAction, hc, hpar]
          | cons c cs =>
            rw [hs] at h
            simp only [List.map_cons] at h
            exact Except.noConfusion h
        | jobj f2 =>
          rw [hpar] at h
          simp only [pyIterate, exbind_ok] at h
          cases hs : f2 with
          | nil =>
            rw [hs] at h
            simp only [List.map_nil] at h
            rw [show extractParamsInner init ([] : List JVal) = .ok init from rfl,
              exbind_ok] at h
            rw [ih _ _ h, hkp]
            simp [keptParamsOfAction, hc, hpar]
          | cons p2 ps2 =>
            rw [hs] at h
            simp only [List.map_cons] at h
            exact Except.noConfusion h
        | jnull => rw [hpar] at h; exact Except.noConfusion h
        | jbool b => rw [hpar] at h; exact Except.noConfusion h
        | jint n => rw [hpar] at h; exact Except.noConfusion h
      · rw [if_neg hc] at h
        rw [ih _ _ h, hkp]
        simp [keptParamsOfAction, hc]
    | jnull => exact Except.noConfusion h
    | jbool b => exact Except.noConfusion h
    | jint n => exact Except.noConfusion h
    | jstr s => exact Except.noConfusion h
    | jarr xs => exact Except.noConfusion h

/-- Claim C7: whenever parameter extraction completes without a Python
exception, it equals a single pass over the kept entries (truthy name
and truthy value, stringified) of every ParametersAction in order,
folded into the dict with last-wins overwrite; extraction over an
appended actions suffix continues from the dict built so far, so every
ParametersAction is scanned, not only the first; and the two
ParametersActions of the spec example setting ENV to "a" then "b"
yield ENV mapped to "b". -/
theorem c7_theorem :
    (∀ (actions : List JVal) (d : List (JVal × String)),
      extract_parameters (.jarr actions) = .ok d → d = keptFold (keptParams actions))
    ∧ extract_parameters (.jarr [
        .jobj [("_class", .jstr "hudson.model.ParametersAction"),
          ("parameters", .jarr [.jobj [("name", .jstr "ENV"), ("value", .jstr "a")]])],
        .jobj [("_class", .jstr "hudson.model.ParametersAction"),
          ("parameters", .jarr [.jobj [("name", .jstr "ENV"), ("value", .jstr "b")]])]]) =
      .ok [(.jstr "ENV", "b")]
    ∧ (∀ (init : List (JVal × String)) (l1 l2 : List JVal),
        extractParamsActions init (l1 ++ l2) =
          Except.bind (extractParamsActions init l1) fun d => extractParamsActions d l2) := by
  refine ⟨?_, rfl, ?_⟩
  · intro actions d h
    exact paramsActions_fold actions [] d h
  · intro init l1 l2
    exact paramsActions_append l1 l2 init

/-- Witness for C7: the fold over the kept parameters of the ENV
example evaluates to the map with ENV mapped to "b". -/
theorem c7_witness :
    ([(JVal.jstr "ENV", "b")] : List (JVal × String)) =
      keptFold (keptParams [
        .jobj [("_class", .jstr "hudson.model.ParametersAction"),
          ("parameters", .jarr [.jobj [("name", .jstr "ENV"), ("value", .jstr "a")]])],
        .jobj [("_class", .jstr "hudson.model.ParametersAction"),
          ("parameters", .jarr [.jobj [("name", .jstr "ENV"), ("value", .jstr "b")]])]]) :=
  c7_theorem.1 _ [(JVal.jstr "ENV", "b")] rfl

theorem paramsInner_falsy_skip : ∀ (ps1 : List JVal) (pf : List (String × JVal))
    (ps2 : List JVal) (init : List (JVal × String)),
    truthy (dictGet pf "value" (.jstr "")) = false →
    extractParamsInner init (ps1 ++ .jobj pf :: ps2) =
      extractParamsInner init (ps1 ++ ps2) := by
  intro ps1
  induction ps1 with
  | nil =>
    intro pf ps2 init hval
    rw [List.nil_append, List.nil_append, paramsInner_cons_obj]
    rw [if_neg]
    simp [hval]
  | cons p rest ih =>
    intro pf ps2 init hval
    rw [List.cons_append, List.cons_append]
    cases p with
    | jobj pf1 =>
      rw [paramsInner_cons_obj, paramsInner_cons_obj]
      by_cases hcond : (truthy (dictGet pf1 "name" (.jstr ""))
          && truthy (dictGet pf1 "value" (.jstr ""))) = true
      · rw [if_pos hcond, if_pos hcond]
        exact congrArg _ (funext fun d => ih pf ps2 d hval)
      · rw [if_neg hcond, if_neg hcond]
        exact ih pf ps2 init hval
    | jnull => rfl
    | jbool b => rfl
    | jint n => rfl
    | jstr s => rfl
    | jarr xs => rfl

/-- Claim C10 as amended: a parameter whose value is falsy (false, 0,
null, empty string, empty container) contributes nothing: removing it
from its ParametersAction leaves the extracted map unchanged, wherever
the action sits in the list; its name can still appear as a key when
another parameter with the same name and truthy value exists. -/
theorem c10_amended : ∀ (as1 as2 ps1 ps2 : List JVal) (pf : List (String × JVal)),
    truthy (dictGet pf "value" (.jstr "")) = false →
    extract_parameters (.jarr (as1 ++
      (.jobj [("_class", .jstr "hudson.model.ParametersAction"),
        ("parameters", .jarr (ps1 ++ .jobj pf :: ps2))]) :: as2)) =
    extract_parameters (.jarr (as1 ++
      (.jobj [("_class", .jstr "hudson.model.ParametersAction"),
        ("parameters", .jarr (ps1 ++ ps2))]) :: as2)) := by
  intro as1 as2 ps1 ps2 pf hval
  show extractParamsActions [] _ = extractParamsActions [] _
  rw [paramsActions_append as1 _ [], paramsActions_append as1 _ []]
  apply congrArg
  funext d
  rw [paramsActions_cons_obj, paramsActions_cons_obj]
  have hc1 : keyEq (dictGet [("_class", JVal.jstr "hudson.model.ParametersAction"),
      ("parameters", JVal.jarr (ps1 ++ JVal.jobj pf :: ps2))] "_class" JVal.jnull)
      (JVal.jstr "hudson.model.ParametersAction") = true := rfl
  have hc2 : keyEq (dictGet [("_class", JVal.jstr "hudson.model.ParametersAction"),
      ("parameters", JVal.jarr (ps1 ++ ps2))] "_class" JVal.jnull)
      (JVal.jstr "hudson.model.ParametersAction") = true := rfl
  rw [if_pos hc1, if_pos hc2]
  have e1 : dictGet [("_class", JVal.jstr "hudson.model.ParametersAction"),
      ("parameters", JVal.jarr (ps1 ++ JVal.jobj pf :: ps2))] "parameters" (JVal.jarr [])
      = JVal.jarr (ps1 ++ JVal.jobj pf :: ps2) := rfl
  have e2 : dictGet [("_class", JVal.jstr "hudson.model.ParametersAction"),
      ("parameters", JVal.jarr (ps1 ++ ps2))] "parameters" (JVal.jarr [])
      = JVal.jarr (ps1 ++ ps2) := rfl
  rw [e1, e2]
  simp only [pyIterate, exbind_ok]
  rw [paramsInner_falsy_skip ps1 pf ps2 d hval]

/-- Witness for the amended C10: removing the falsy-valued parameter
named X from the counterexample action leaves the result unchanged. -/
theorem c10_witness :
    extract_parameters (.jarr [.jobj [("_class", .jstr "hudson.model.ParametersAction"),
      ("parameters", .jarr [.jobj [("name", .jstr "X"), ("value", .jbool false)],
        .jobj [("name", .jstr "X"), ("value", .jstr "1")]])]]) =
    extract_parameters (.jarr [.jobj [("_class", .jstr "hudson.model.ParametersAction"),
      ("parameters", .jarr [.jobj [("name", .jstr "X"), ("value", .jstr "1")]])]]) :=
  c10_amended [] [] [] [.jobj [("name", .jstr "X"), ("value", .jstr "1")]]
    [("name", .jstr "X"), ("value", .jbool false)] rfl

/-- Claim C10, counterexample: an actions list containing a parameter
named X with falsy value false still maps X in the result, because a
second parameter named X has the truthy value "1": only the falsy
entry itself is dropped, not the name. -/
theorem c10_counterexample :
    extract_parameters (.jarr [.jobj [("_class", .jstr "hudson.model.ParametersAction"),
      ("parameters", .jarr [.jobj [("name", .jstr "X"), ("value", .jbool false)],
        .jobj [("name", .jstr "X"), ("value", .jstr "1")]])]]) =
      .ok [(.jstr "X", "1")]
    ∧ ([((JVal.jstr "X" : JVal), "1")].any (fun p => keyEq p.1 (.jstr "X"))) = true :=
  ⟨rfl, rfl⟩

/-! ## Trigger-extraction lemmas for claim C4 -/

theorem pyStr_jstr (s : String) : pyStr (.jstr s) = s := rfl

theorem triggerCause_good : ∀ (c v : JVal), goodCause c = true →
    triggerForCause c = .ok (some v) → pyStr v ≠ "" := by
  intro c v hg h
  cases c with
  | jnull => exact Except.noConfusion h
  | jbool b => exact Except.noConfusion h
  | jint n => exact Except.noConfusion h
  | jstr s =>
    by_cases h1 : strContains s "userId" = true
    · simp only [triggerForCause, pyIn, h1, ebind_ok, if_true, pyDictGetE, asObj,
        ebind_error, emap_error] at h
      exact Except.noConfusion h
    · by_cases h2 : strContains s "shortDescription" = true
      · simp only [triggerForCause, pyIn, h1, h2, ebind_ok, if_true, Bool.false_eq_true,
          if_false, pyDictGetE, asObj, ebind_error, emap_error] at h
        exact Except.noConfusion h
      · simp only [triggerForCause, pyIn, h1, h2, ebind_ok, Bool.false_eq_true,
          if_false, epure] at h
        simp at h
  | jarr xs =>
    by_cases h1 : (xs.any fun x => keyEq x (.jstr "userId")) = true
    · simp only [triggerForCause, pyIn, h1, ebind_ok, if_true, pyDictGetE, asObj,
        ebind_error, emap_error] at h
      exact Except.noConfusion h
    · by_cases h2 : (xs.any fun x => keyEq x (.jstr "shortDescription")) = true
      · simp only [triggerForCause, pyIn, h1, h2, ebind_ok, if_true, Bool.false_eq_true,
          if_false, pyDictGetE, asObj, ebind_error, emap_error] at h
        exact Except.noConfusion h
      · simp only [triggerForCause, pyIn, h1, h2, ebind_ok, Bool.false_eq_true,
          if_false, epure] at h
        simp at h
  | jobj cf =>
    by_cases hk : hasKey cf "userId" = true
    · simp only [triggerForCause, pyIn, hk, ebind_ok, if_true, pyDictGetE, asObj,
        emap_ok, epure] at h
      have hv : v = dictGet cf "userId" (.jstr "Unknown User") := by
        have := h
        simp only [Except.ok.injEq, Option.some.injEq] at this
        exact this.symm
      simp only [goodCause, hk, if_true, Bool.and_eq_true] at hg
      rw [hv]
      simpa using hg.1
    · by_cases hd : hasKey cf "shortDescription" = true
      · cases hdesc : dictGet cf "shortDescription" (.jstr "") with
        | jstr d =>
          simp only [goodCause, hk, Bool.false_eq_true, if_false, hd, if_true, hdesc,
            Bool.and_eq_true] at hg
          by_cases h3 : strContains d "Started by user" = true
          · simp only [triggerForCause, pyIn, hk, hd, hdesc, h3, ebind_ok, if_true,
              Bool.false_eq_true, if_false, pyDictGetE, asObj, emap_ok, epure,
              pyReplaceV] at h
            simp only [Except.ok.injEq, Option.some.injEq] at h
            rw [← h, pyStr_jstr]
            simpa using hg.2.1
          · by_cases h4 : strContains d "Started by" = true
            · simp only [triggerForCause, pyIn, hk, hd, hdesc, h3, h4, ebind_ok, if_true,
                Bool.false_eq_true, if_false, pyDictGetE, asObj, emap_ok, epure,
                pyReplaceV] at h
              simp only [Except.ok.injEq, Option.some.injEq] at h
              rw [← h, pyStr_jstr]
              simpa using hg.2.2
            · simp only [triggerForCause, pyIn, hk, hd, hdesc, h3, h4, ebind_ok, if_true,
                Bool.false_eq_true, if_false, pyDictGetE, asObj, epure] at h
              simp only [Except.ok.injEq, Option.some.injEq] at h
              rw [← h]
              decide
        | jarr ys =>
          by_cases h3 : (ys.any fun x => keyEq x (.jstr "Started by user")) = true
          · simp only [triggerForCause, pyIn, hk, hd, hdesc, h3, ebind_ok, if_true,
              Bool.false_eq_true, if_false, pyDictGetE, asObj, pyReplaceV, emap_error,
              ebind_error, epure] at h
            exact Except.noConfusion h
          · by_cases h4 : (ys.any fun x => keyEq x (.jstr "Started by")) = true
            · simp only [triggerForCause, pyIn, hk, hd, hdesc, h3, h4, ebind_ok, if_true,
                Bool.false_eq_true, if_false, pyDictGetE, asObj, pyReplaceV, emap_error,
                ebind_error, epure] at h
              exact Except.noConfusion h
            · simp only [triggerForCause, pyIn, hk, hd, hdesc, h3, h4, ebind_ok, if_true,
                Bool.false_eq_true, if_false, pyDictGetE, asObj, epure] at h
              simp only [Except.ok.injEq, Option.some.injEq] at h
              rw [← h]
              decide
        | jobj fs2 =>
          by_cases h3 : hasKey fs2 "Started by user" = true
          · simp only [triggerForCause, pyIn, hk, hd, hdesc, h3, ebind_ok, if_true,
              Bool.false_eq_true, if_false, pyDictGetE, asObj, pyReplaceV, emap_error,
              ebind_error, epure] at h
            exact Except.noConfusion h
          · by_cases h4 : hasKey fs2 "Started by" = true
            · simp only [triggerForCause, pyIn, hk, hd, hdesc, h3, h4, ebind_ok, if_true,
                Bool.false_eq_true, if_false, pyDictGetE, asObj, pyReplaceV, emap_error,
                ebind_error, epure] at h
              exact Except.noConfusion h
            · simp only [triggerForCause, pyIn, hk, hd, hdesc, h3, h4, ebind_ok, if_true,
                Bool.false_eq_true, if_false, pyDictGetE, asObj, epure] at h
              simp only [Except.ok.injEq, Option.some.injEq] at h
              rw [← h]
              decide
        | jnull =>
          simp only [triggerForCause, pyIn, hk, hd, hdesc, ebind_ok, if_true,
            Bool.false_eq_true, if_false, pyDictGetE, asObj, ebind_error, epure] at h
          exact Except.noConfusion h
        | jbool b =>
          simp only [triggerForCause, pyIn, hk, hd, hdesc, ebind_ok, if_true,
            Bool.false_eq_true, if_false, pyDictGetE, asObj, ebind_error, epure] at h
          exact Except.noConfusion h
        | jint n =>
          simp only [triggerForCause, pyIn, hk, hd, hdesc, ebind_ok, if_true,
            Bool.false_eq_true, if_false, pyDictGetE, asObj, ebind_error, epure] at h
          exact Except.noConfusion h
      · simp only [triggerForCause, pyIn, hk, hd, ebind_ok, Bool.false_eq_true,
          if_false, epure] at h
        simp at h

theorem scanCauses_good : ∀ (cs : List JVal) (v : JVal),
    (∀ c ∈ cs, goodCause c = true) → triggerScanCauses cs = .ok (some v) →
    pyStr v ≠ "" := by
  intro cs
  induction cs with
  | nil =>
    intro v _ h
    simp [triggerScanCauses] at h
  | cons c rest ih =>
    intro v hall h
    show pyStr v ≠ ""
    rcases hfc : triggerForCause c with e | o
    · rw [show triggerScanCauses (c :: rest) = Except.bind (triggerForCause c) _ from rfl,
        hfc] at h
      exact Except.noConfusion h
    · rw [show triggerScanCauses (c :: rest) = Except.bind (triggerForCause c) _ from rfl,
        hfc] at h
      cases o with
      | some w =>
        have hv : w = v := by
          simpa only [exbind_ok, epure, Except.ok.injEq, Option.some.injEq] using h
        exact hv ▸ triggerCause_good c w (hall c (by simp)) hfc
      | none =>
        exact ih v (fun c hc => hall c (by simp [hc])) h

theorem iterate_causes_good : ∀ (cv : JVal) (l : List JVal),
    pyIterate cv = .ok l →
    (match cv with | .jarr cs => cs.all goodCause = true | _ => True) →
    ∀ c ∈ l, goodCause c = true := by
  intro cv l hit hg c hc
  cases cv with
  | jarr cs =>
    injection hit with hit
    subst hit
    exact List.all_eq_true.mp hg c hc
  | jstr s =>
    injection hit with hit
    subst hit
    obtain ⟨ch, _, rfl⟩ := List.mem_map.mp hc
    rfl
  | jobj fs =>
    injection hit with hit
    subst hit
    obtain ⟨p, _, rfl⟩ := List.mem_map.mp hc
    rfl
  | jnull => exact Except.noConfusion hit
  | jbool b => exact Except.noConfusion hit
  | jint n => exact Except.noConfusion hit

theorem scanActions_good : ∀ (acts : List JVal) (v : JVal),
    (∀ a ∈ acts, goodAction a = true) → triggerScanActions acts = .ok v →
    pyStr v ≠ "" := by
  intro acts
  induction acts with
  | nil =>
    intro v _ h
    have hv : JVal.jstr "Unknown" = v := by simpa [triggerScanActions] using h
    rw [← hv]
    decide
  | cons a rest ih =>
    intro v hall h
    cases a with
    | jobj fs =>
      rw [scanActions_cons_obj] at h
      by_cases hc : keyEq (dictGet fs "_class" .jnull)
          (.jstr "hudson.model.CauseAction") = true
      · rw [if_pos hc] at h
        rcases hit : pyIterate (dictGet fs "causes" (.jarr [])) with e | cs
        · rw [hit] at h
          exact Except.noConfusion h
        · rw [hit] at h
          simp only [exbind_ok] at h
          have hgood : ∀ c ∈ cs, goodCause c = true := by
            apply iterate_causes_good _ _ hit
            have hga := hall (.jobj fs) (by simp)
            simp only [goodAction] at hga
            cases hcv : dictGet fs "causes" (.jarr []) with
            | jarr l => rw [hcv] at hga; exact hga
            | jnull => trivial
            | jbool b => trivial
            | jint n => trivial
            | jstr s => trivial
            | jobj f2 => trivial
          rcases hsc : triggerScanCauses cs with e | o
          · rw [hsc] at h
            exact Except.noConfusion h
          · rw [hsc] at h
            cases o with
            | some w =>
              have hv : w = v := by
                simpa only [exbind_ok, Except.ok.injEq] using h
              exact hv ▸ scanCauses_good cs w hgood hsc
            | none =>
              exact ih v (fun x hx => hall x (by simp [hx])) h
      · rw [if_neg hc] at h
        exact ih v (fun x hx => hall x (by simp [hx])) h
    | jnull => exact Except.noConfusion h
    | jbool b => exact Except.noConfusion h
    | jint n => exact Except.noConfusion h
    | jstr s => exact Except.noConfusion h
    | jarr xs => exact Except.noConfusion h

/-- Claim C4, counterexample: a CauseAction whose cause carries an
empty-string userId makes the extraction return the empty string, so
triggeredBy is not always non-empty. -/
theorem c4_counterexample :
    extract_trigger_info (.jarr [.jobj [("_class", .jstr "hudson.model.CauseAction"),
      ("causes", .jarr [.jobj [("userId", .jstr "")]])]]) = .ok (.jstr "")
    ∧ pyStr (.jstr "") = "" := ⟨rfl, rfl⟩

/-- Claim C4 as amended: the extracted trigger stringifies to a
non-empty value (with "Unknown" as the no-match fallback) provided no
consulted cause carries a userId that stringifies to the empty string
and no string shortDescription collapses to the empty string under
either prefix removal; without that proviso the result can be the
empty string, as the counterexample shows. -/
theorem c4_amended : ∀ (actions v : JVal),
    goodActions actions = true → extract_trigger_info actions = .ok v →
    pyStr v ≠ "" := by
  intro actions v hg h
  cases actions with
  | jarr l =>
    simp only [goodActions, List.all_eq_true] at hg
    exact scanActions_good l v hg h
  | jstr s =>
    apply scanActions_good (s.toList.map (fun c => .jstr (String.mk [c]))) v _ h
    intro a ha
    obtain ⟨ch, _, rfl⟩ := List.mem_map.mp ha
    rfl
  | jobj fs =>
    apply scanActions_good (fs.map (fun p : String × JVal => JVal.jstr p.1)) v _ h
    intro a ha
    obtain ⟨p, _, rfl⟩ := List.mem_map.mp ha
    rfl
  | jnull => exact Except.noConfusion h
  | jbool b => exact Except.noConfusion h
  | jint n => exact Except.noConfusion h

/-- Witness for the amended C4: the spec example "Started by user
Alice" satisfies the proviso and yields the non-empty "Alice". -/
theorem c4_witness :
    extract_trigger_info (.jarr [.jobj [("_class", .jstr "hudson.model.CauseAction"),
      ("causes", .jarr [.jobj [("shortDescription",
        .jstr "Started by user Alice")]])]]) = .ok (.jstr "Alice")
    ∧ pyStr (.jstr "Alice") ≠ "" :=
  ⟨rfl, c4_amended (.jarr [.jobj [("_class", .jstr "hudson.model.CauseAction"),
      ("causes", .jarr [.jobj [("shortDescription", .jstr "Started by user Alice")]])]])
    (.jstr "Alice") rfl rfl⟩
